import Mathlib

/-!
Verification of the balance-to-flow-graph core of the hledger visualizer.

The repository contains two variants of the same application:
`hledger_lit.py` (namespace `HledgerLit`) and `sankey_app.py`
(namespace `SankeyApp`).  The pure transformation cores of both are
embedded below:

* account names are `String`s, balances are `Int`s (the Python code
  only compares balances with zero, negates and subtracts them, and
  takes absolute values, so the embedding of floats by integers is
  exact for everything proved here);
* the Python regex patterns of `hledger_lit.py` are alternations of
  literal words (the defaults are `income|virtual|revenues`,
  `expenses`, `assets`, `liabilities`); they are embedded as lists of
  words, and `pattern.search(name)` as: some word of the list occurs
  in `name` as a contiguous substring;
* Python `needle in haystack` on strings is embedded by `substrIn`,
  Python `str.split` / `str.join` on a colon by `splitChar` /
  `joinColon`, and Python `dict` assignment and lookup by `insertDict`
  and `lookupD` on association lists (assignment replaces the value of
  an existing key in place, otherwise appends);
* `raise Exception(...)` is embedded by `Except.error` carrying the
  formatted message.
-/

/-- Python `list.startswith` on character lists: `charListStarts needle hay`
is true when `needle` is an initial run of `hay`. -/
def charListStarts : List Char → List Char → Bool
  | [], _ => true
  | _ :: _, [] => false
  | a :: as, b :: bs => a == b && charListStarts as bs

/-- Auxiliary scan: does `needle` occur contiguously anywhere in the haystack. -/
def strContainsAux (needle : List Char) : List Char → Bool
  | [] => charListStarts needle []
  | c :: rest => charListStarts needle (c :: rest) || strContainsAux needle rest

/-- Python `needle in hay` on strings: contiguous-substring occurrence. -/
def substrIn (needle hay : String) : Bool :=
  strContainsAux needle.toList hay.toList

/-- Python `re.search` for an alternation of literal words:
some word occurs in the name as a substring. -/
def anyWordIn (words : List String) (name : String) : Bool :=
  words.any (fun w => substrIn w name)

/-- Python `str.split(sep)` for a one-character separator, on character lists. -/
def splitChar (sep : Char) : List Char → List (List Char)
  | [] => [[]]
  | c :: rest =>
    let groups := splitChar sep rest
    if c = sep then [] :: groups
    else
      match groups with
      | [] => [[c]]
      | g :: gs => (c :: g) :: gs

/-- Python `':'.join(groups)` on character lists. -/
def joinColon : List (List Char) → List Char
  | [] => []
  | [g] => g
  | g :: gs => g ++ ':' :: joinColon gs

/-- Python dict assignment `d[k] = v` as a transformation of an association
list: replace the value of an existing key, otherwise append the pair. -/
def insertDict {α : Type} : List (String × α) → String → α → List (String × α)
  | [], k, v => [(k, v)]
  | (k', v') :: rest, k, v =>
    if k' = k then (k, v) :: rest else (k', v') :: insertDict rest k v

/-- Python dict lookup `d[k]` / `k in d` as an association-list lookup. -/
def lookupD {α : Type} : List (String × α) → String → Option α
  | [], _ => none
  | (k', v') :: rest, k => if k' = k then some v' else lookupD rest k

/-- A Python loop that appends one result per element and raises on the
first bad element: evaluate `f` left to right, stopping at the first error. -/
def exceptMap {α β : Type} (f : α → Except String β) : List α → Except String (List β)
  | [] => Except.ok []
  | x :: xs =>
    match f x with
    | Except.error e => Except.error e
    | Except.ok y =>
      match exceptMap f xs with
      | Except.error e => Except.error e
      | Except.ok ys => Except.ok (y :: ys)

namespace HledgerLit

/-- Default income pattern of hledger_lit.py, as its list of literal
alternatives (the source string is an alternation of these words). -/
def INCOME_WORDS : List String := ["income", "virtual", "revenues"]

/-- Default expense pattern of hledger_lit.py. -/
def EXPENSE_WORDS : List String := ["expenses"]

/-- Default asset pattern of hledger_lit.py. -/
def ASSET_WORDS : List String := ["assets"]

/-- Default liability pattern of hledger_lit.py. -/
def LIABILITY_WORDS : List String := ["liabilities"]

/-- hledger_lit.py `parent`: drop the last colon-delimited segment of an
account name and re-join the rest with colons. -/
def parent (account_name : String) : String :=
  String.mk (joinColon (splitChar ':' account_name.toList).dropLast)

/-- The message of the exception raised by `to_sankey_data` when a parent
account is missing from the balance list. -/
def errMsg (account_name parent_acc : String) : String :=
  "for account " ++ account_name ++ ", parent account " ++ parent_acc ++
    " not found - have you forgotten --no-elide?"

/-- The (source, target, value) tuple appended for one balance entry once its
parent is known, following the sign/direction rules of hledger_lit.py
`to_sankey_data` (both branches of the income test produce the same tuple). -/
def sankeyEdge (income_words : List String) (account_name parent_acc : String)
    (balance : Int) : String × String × Int :=
  if anyWordIn income_words account_name then
    if balance < 0 then (account_name, parent_acc, |balance|)
    else (parent_acc, account_name, |balance|)
  else
    if balance ≥ 0 then (parent_acc, account_name, |balance|)
    else (account_name, parent_acc, |balance|)

/-- The body of the hledger_lit.py `to_sankey_data` loop for one entry:
resolve the parent (the synthetic pot for names without a colon, otherwise
the stripped name, which must be a known account) and build the edge. -/
def sankeyEntry (accounts : List String) (income_words : List String)
    (entry : String × Int) : Except String (String × String × Int) :=
  let account_name := entry.1
  let balance := entry.2
  if substrIn ":" account_name = false then
    Except.ok (sankeyEdge income_words account_name "pot" balance)
  else
    let parent_acc := parent account_name
    if parent_acc ∈ accounts then
      Except.ok (sankeyEdge income_words account_name parent_acc balance)
    else
      Except.error (errMsg account_name parent_acc)

/-- hledger_lit.py `to_sankey_data`: one (source, target, value) tuple per
balance entry, or the first missing-parent error.  Only the income pattern
is consulted by the body; the other three patterns are accepted and unused,
as in the source. -/
def to_sankey_data (balances : List (String × Int))
    (income_words expense_words asset_words liability_words : List String) :
    Except String (List (String × String × Int)) :=
  let accounts := balances.map (fun e => e.1)
  exceptMap (sankeyEntry accounts income_words) balances

/-- Balance of one period: the absolute value of the first amount whose
commodity equals the requested one, `0` when there is none.  An amount is a
(commodity, quantity) pair. -/
def periodBalance (commodity : String) (amount_list : List (String × Int)) : Int :=
  match amount_list.find? (fun amount => amount.1 == commodity) with
  | some amount => |amount.2|
  | none => 0

/-- The row loop of hledger_lit.py `read_historical_balances`: thread the
balances dict and the running net-worth list over the periodic-report rows.
A row is (prrName, prrAmounts); a retained row stores its per-period
magnitudes and adds them to (asset match) or subtracts them from
(liability match) the net worth. -/
def histStateAux (commodity : String)
    (account_words asset_words liability_words : List String) :
    List (String × List (List (String × Int))) →
    List (String × List Int) → List Int →
    List (String × List Int) × List Int
  | [], balances, net_worth => (balances, net_worth)
  | row :: rest, balances, net_worth =>
    if anyWordIn account_words row.1 then
      let account_balances := row.2.map (periodBalance commodity)
      let balances2 := insertDict balances row.1 account_balances
      let net_worth2 :=
        if anyWordIn asset_words row.1 then
          List.zipWith (fun nw bal => nw + bal) net_worth account_balances
        else if anyWordIn liability_words row.1 then
          List.zipWith (fun nw bal => nw - bal) net_worth account_balances
        else net_worth
      histStateAux commodity account_words asset_words liability_words rest
        balances2 net_worth2
    else
      histStateAux commodity account_words asset_words liability_words rest
        balances net_worth

/-- hledger_lit.py `read_historical_balances`, its pure part after the
subprocess call: the shared period dates and, per retained account, the
per-period magnitudes, plus the net-worth series which is always stored. -/
def read_historical_balances (dates : List String)
    (rows : List (String × List (List (String × Int))))
    (commodity : String)
    (income_words expense_words asset_words liability_words : List String) :
    List String × List (String × List Int) :=
  let num_periods := dates.length
  let account_words := income_words ++ expense_words ++ asset_words ++ liability_words
  let state := histStateAux commodity account_words asset_words liability_words
    rows [] (List.replicate num_periods 0)
  (dates, insertDict state.1 "net_worth" state.2)

/-- hledger_lit.py `read_current_balances`, its pure part after the
subprocess call: an entry is (account name, amounts list); keep entries
matching the account words, taking the first amount as the balance and `0`
when the amounts list is empty. -/
def read_current_balances (account_words : List String) :
    List (String × List Int) → List (String × Int)
  | [] => []
  | entry :: rest =>
    if anyWordIn account_words entry.1 then
      (entry.1, match entry.2 with | [] => 0 | a :: _ => a) ::
        read_current_balances account_words rest
    else
      read_current_balances account_words rest

/-- hledger_lit.py `expenses_treemap_plot`, the chart data it hands to the
renderer: the parallel label, value and parent lists (the input already
contains only expenses, no filtering happens). -/
def expenses_treemap_plot (balances : List (String × Int)) :
    List String × List Int × List String :=
  let labels := balances.map (fun e => e.1)
  let values := balances.map (fun e => e.2)
  let parents := balances.map (fun e => parent e.1)
  (labels, values, parents)

end HledgerLit

namespace SankeyApp

/-- sankey_app.py income account pattern. -/
def INCOME_ACCOUNT_PAT : String := "income"

/-- sankey_app.py expense account pattern. -/
def EXPENSE_ACCOUNT_PAT : String := "expenses"

/-- sankey_app.py asset account pattern. -/
def ASSET_ACCOUNT_PAT : String := "assets"

/-- sankey_app.py liability account pattern. -/
def LIABILITY_ACCOUNT_PAT : String := "liabilities"

/-- sankey_app.py other top-level categories. -/
def OTHER_TOPLEVEL : List String := ["revenues", "virtual"]

/-- sankey_app.py toplevel account categories: the four patterns plus the
other categories. -/
def TOPLEVEL_ACCOUNT_CATEGORIES : List String :=
  [INCOME_ACCOUNT_PAT, EXPENSE_ACCOUNT_PAT, ASSET_ACCOUNT_PAT,
    LIABILITY_ACCOUNT_PAT] ++ OTHER_TOPLEVEL

/-- sankey_app.py `parent`: drop the last colon-delimited segment of an
account name and re-join the rest with colons. -/
def parent (account_name : String) : String :=
  String.mk (joinColon (splitChar ':' account_name.toList).dropLast)

/-- The message of the exception raised by `to_sankey_data` when a parent
account is missing from the balance list. -/
def errMsg (account_name parent_acc : String) : String :=
  "for account " ++ account_name ++ ", parent account " ++ parent_acc ++
    " not found - have you forgotten --no-elide?"

/-- The (source, target, value) tuple appended for one balance entry once its
parent is known, following the sign/direction rules of sankey_app.py
`to_sankey_data` (both branches of the income test produce the same tuple). -/
def sankeyEdge (income_pattern : String) (account_name parent_acc : String)
    (balance : Int) : String × String × Int :=
  if substrIn income_pattern account_name || substrIn "virtual" account_name then
    if balance < 0 then (account_name, parent_acc, |balance|)
    else (parent_acc, account_name, |balance|)
  else
    if balance ≥ 0 then (parent_acc, account_name, |balance|)
    else (account_name, parent_acc, |balance|)

/-- The body of the sankey_app.py `to_sankey_data` loop for one entry:
resolve the parent (the synthetic pot for top-level category names,
otherwise the stripped name, which must be a known account) and build the
edge. -/
def sankeyEntry (accounts toplevel_categories : List String)
    (income_pattern : String) (entry : String × Int) :
    Except String (String × String × Int) :=
  let account_name := entry.1
  let balance := entry.2
  if account_name ∈ toplevel_categories then
    Except.ok (sankeyEdge income_pattern account_name "pot" balance)
  else
    let parent_acc := parent account_name
    if parent_acc ∈ accounts then
      Except.ok (sankeyEdge income_pattern account_name parent_acc balance)
    else
      Except.error (errMsg account_name parent_acc)

/-- sankey_app.py `to_sankey_data`: one (source, target, value) tuple per
balance entry, or the first missing-parent error. -/
def to_sankey_data (balances : List (String × Int))
    (income_pattern expense_pattern asset_pattern liability_pattern : String)
    (other_categories : List String) :
    Except String (List (String × String × Int)) :=
  let accounts := balances.map (fun e => e.1)
  let toplevel_categories :=
    [income_pattern, expense_pattern, asset_pattern, liability_pattern] ++
      other_categories
  exceptMap (sankeyEntry accounts toplevel_categories income_pattern) balances

/-- Balance of one period: the absolute value of the first amount whose
commodity equals the requested one, `0` when there is none.  An amount is a
(commodity, quantity) pair. -/
def periodBalance (commodity : String) (amount_list : List (String × Int)) : Int :=
  match amount_list.find? (fun amount => amount.1 == commodity) with
  | some amount => |amount.2|
  | none => 0

/-- The row loop of sankey_app.py `read_historical_balances`: a row
(prrName, prrAmounts) is retained exactly when its name is one of the
top-level categories, storing its per-period magnitudes in the balances
dict. -/
def histBalAux (commodity : String) (toplevel_categories : List String) :
    List (String × List (List (String × Int))) →
    List (String × List Int) → List (String × List Int)
  | [], balances => balances
  | row :: rest, balances =>
    if row.1 ∈ toplevel_categories then
      histBalAux commodity toplevel_categories rest
        (insertDict balances row.1 (row.2.map (periodBalance commodity)))
    else
      histBalAux commodity toplevel_categories rest balances

/-- sankey_app.py `read_historical_balances`, its pure part after the
subprocess call: the shared period dates and the retained per-category
series, plus the derived net-worth series (assets minus liabilities when
both are present, a copy of the asset series when only it is present,
nothing otherwise). -/
def read_historical_balances (dates : List String)
    (rows : List (String × List (List (String × Int))))
    (commodity income_pattern expense_pattern asset_pattern liability_pattern : String)
    (other_categories : List String) :
    List String × List (String × List Int) :=
  let toplevel_categories :=
    [income_pattern, expense_pattern, asset_pattern, liability_pattern] ++
      other_categories
  let balances := histBalAux commodity toplevel_categories rows []
  let balances2 :=
    match lookupD balances asset_pattern, lookupD balances liability_pattern with
    | some assets, some liabilities =>
      insertDict balances "net_worth"
        (List.zipWith (fun a l => a - l) assets liabilities)
    | some assets, none => insertDict balances "net_worth" assets
    | none, _ => balances
  (dates, balances2)

/-- sankey_app.py `read_current_balances`, its pure part after the
subprocess call: an entry is (account name, amounts list); keep entries
containing one of the top-level category names, taking the first amount as
the balance and `0` when the amounts list is empty. -/
def read_current_balances :
    List (String × List Int) → List (String × Int)
  | [] => []
  | entry :: rest =>
    if TOPLEVEL_ACCOUNT_CATEGORIES.any (fun cat => substrIn cat entry.1) then
      (entry.1, match entry.2 with | [] => 0 | a :: _ => a) ::
        read_current_balances rest
    else
      read_current_balances rest

/-- sankey_app.py `expenses_treemap_plot`, the chart data it hands to the
renderer: filter the balances to expense-matching names, then the parallel
label, value and parent lists. -/
def expenses_treemap_plot (balances : List (String × Int))
    (expense_pattern : String) :
    List String × List Int × List String :=
  let expenses := balances.filter (fun e => substrIn expense_pattern e.1)
  let labels := expenses.map (fun e => e.1)
  let values := expenses.map (fun e => e.2)
  let parents := expenses.map (fun e => parent e.1)
  (labels, values, parents)

end SankeyApp

example : HledgerLit.parent "assets:cash" = "assets" := by decide
example : HledgerLit.parent "assets" = "" := by decide
example : HledgerLit.parent "" = "" := by decide
example : HledgerLit.parent "a:b:c" = "a:b" := by decide
example : substrIn "income" "xincomey" = true := by decide
example : substrIn "income" "incomx" = false := by decide
example : substrIn "" "abc" = true := by decide
example : substrIn "a" "" = false := by decide
example : HledgerLit.to_sankey_data [("income", -10), ("income:salary", -7)]
    HledgerLit.INCOME_WORDS HledgerLit.EXPENSE_WORDS HledgerLit.ASSET_WORDS
    HledgerLit.LIABILITY_WORDS =
    Except.ok [("income", "pot", 10), ("income:salary", "income", 7)] := rfl
example : SankeyApp.to_sankey_data [("expenses", 5), ("expenses:food", 3)]
    "income" "expenses" "assets" "liabilities" ["revenues", "virtual"] =
    Except.ok [("pot", "expenses", 5), ("expenses", "expenses:food", 3)] := rfl
example : SankeyApp.to_sankey_data [("expenses:food", 3)]
    "income" "expenses" "assets" "liabilities" [] =
    Except.error (SankeyApp.errMsg "expenses:food" "expenses") := rfl

/-! General lemmas about the embedding helpers. -/

theorem exceptMap_ok_length {α β : Type} {f : α → Except String β}
    {xs : List α} {ys : List β} (h : exceptMap f xs = Except.ok ys) :
    ys.length = xs.length := by
  induction xs generalizing ys with
  | nil =>
    simp only [exceptMap] at h
    cases h
    rfl
  | cons x xs ih =>
    simp only [exceptMap] at h
    cases hx : f x with
    | error e => rw [hx] at h; cases h
    | ok y =>
      rw [hx] at h
      cases hrec : exceptMap f xs with
      | error e => rw [hrec] at h; cases h
      | ok ys' =>
        rw [hrec] at h
        cases h
        simp [ih hrec]

theorem exceptMap_ok_get {α β : Type} {f : α → Except String β}
    {xs : List α} {ys : List β} (h : exceptMap f xs = Except.ok ys) :
    ∀ i (hi : i < xs.length) (hi' : i < ys.length),
      f (xs.get ⟨i, hi⟩) = Except.ok (ys.get ⟨i, hi'⟩) := by
  induction xs generalizing ys with
  | nil => intro i hi; exact absurd hi (Nat.not_lt_zero i)
  | cons x xs ih =>
    simp only [exceptMap] at h
    cases hx : f x with
    | error e => rw [hx] at h; cases h
    | ok y =>
      rw [hx] at h
      cases hrec : exceptMap f xs with
      | error e => rw [hrec] at h; cases h
      | ok ys' =>
        rw [hrec] at h
        cases h
        intro i hi hi'
        cases i with
        | zero => simpa using hx
        | succ j =>
          exact ih hrec j (Nat.lt_of_succ_lt_succ hi) (Nat.lt_of_succ_lt_succ hi')

theorem exceptMap_ok_of_forall {α β : Type} {f : α → Except String β}
    {xs : List α} (h : ∀ x ∈ xs, ∃ y, f x = Except.ok y) :
    ∃ ys, exceptMap f xs = Except.ok ys := by
  induction xs with
  | nil => exact ⟨[], rfl⟩
  | cons x xs ih =>
    obtain ⟨y, hy⟩ := h x (List.mem_cons_self x xs)
    obtain ⟨ys, hys⟩ := ih (fun a ha => h a (List.mem_cons_of_mem x ha))
    exact ⟨y :: ys, by simp [exceptMap, hy, hys]⟩

theorem exceptMap_mem {α β : Type} {f : α → Except String β}
    {xs : List α} {ys : List β} (h : exceptMap f xs = Except.ok ys) :
    ∀ y ∈ ys, ∃ x ∈ xs, f x = Except.ok y := by
  induction xs generalizing ys with
  | nil =>
    simp only [exceptMap] at h
    cases h
    intro y hy
    exact absurd hy (List.not_mem_nil y)
  | cons x xs ih =>
    simp only [exceptMap] at h
    cases hx : f x with
    | error e => rw [hx] at h; cases h
    | ok y0 =>
      rw [hx] at h
      cases hrec : exceptMap f xs with
      | error e => rw [hrec] at h; cases h
      | ok ys' =>
        rw [hrec] at h
        cases h
        intro y hy
        rcases List.mem_cons.mp hy with hy0 | hy1
        · exact ⟨x, List.mem_cons_self x xs, hy0 ▸ hx⟩
        · obtain ⟨a, ha, hfa⟩ := ih hrec y hy1
          exact ⟨a, List.mem_cons_of_mem x ha, hfa⟩

theorem exceptMap_first_error {α β : Type} {f : α → Except String β}
    {xs : List α} (P : α → Prop) [DecidablePred P] (g : α → String)
    (hbad : ∀ x, P x → f x = Except.error (g x))
    (hgood : ∀ x, ¬ P x → ∃ y, f x = Except.ok y)
    (hex : ∃ x ∈ xs, P x) :
    ∃ a, a ∈ xs ∧ P a ∧ exceptMap f xs = Except.error (g a) := by
  induction xs with
  | nil =>
    obtain ⟨x, hx, _⟩ := hex
    exact absurd hx (List.not_mem_nil x)
  | cons x xs ih =>
    by_cases hPx : P x
    · refine ⟨x, List.mem_cons_self x xs, hPx, ?_⟩
      simp [exceptMap, hbad x hPx]
    · obtain ⟨y, hy⟩ := hgood x hPx
      have hex' : ∃ a ∈ xs, P a := by
        obtain ⟨a, ha, hPa⟩ := hex
        rcases List.mem_cons.mp ha with rfl | ha'
        · exact absurd hPa hPx
        · exact ⟨a, ha', hPa⟩
      obtain ⟨a, ha, hPa, herr⟩ := ih hex'
      exact ⟨a, List.mem_cons_of_mem x ha, hPa, by simp [exceptMap, hy, herr]⟩

theorem lookupD_insertDict_self {α : Type} (d : List (String × α)) (k : String) (v : α) :
    lookupD (insertDict d k v) k = some v := by
  induction d with
  | nil => simp [insertDict, lookupD]
  | cons p rest ih =>
    obtain ⟨k', v'⟩ := p
    by_cases hk : k' = k
    · simp [insertDict, lookupD, hk]
    · simp [insertDict, lookupD, hk, ih]

theorem lookupD_insertDict_ne {α : Type} (d : List (String × α)) {k k' : String}
    (v : α) (hne : k ≠ k') :
    lookupD (insertDict d k v) k' = lookupD d k' := by
  induction d with
  | nil => simp [insertDict, lookupD, hne]
  | cons p rest ih =>
    obtain ⟨k0, v0⟩ := p
    by_cases hk : k0 = k
    · subst hk
      simp [insertDict, lookupD, hne]
    · simp only [insertDict, if_neg hk, lookupD]
      by_cases hk' : k0 = k'
      · simp [hk']
      · simp [hk', ih]

theorem lookupD_insertDict_isSome {α : Type} (d : List (String × α))
    (k k' : String) (v : α) :
    (lookupD (insertDict d k v) k').isSome ↔ k' = k ∨ (lookupD d k').isSome := by
  by_cases hk : k' = k
  · subst hk
    simp [lookupD_insertDict_self]
  · rw [lookupD_insertDict_ne d v (fun h => hk h.symm)]
    simp [hk]

theorem zipWith_get_eq {f : Int → Int → Int} {as bs : List Int} :
    ∀ i (ha : i < as.length) (hb : i < bs.length)
      (h : i < (List.zipWith f as bs).length),
      (List.zipWith f as bs).get ⟨i, h⟩ = f (as.get ⟨i, ha⟩) (bs.get ⟨i, hb⟩) := by
  induction as generalizing bs with
  | nil => intro i ha; exact absurd ha (Nat.not_lt_zero i)
  | cons a as ih =>
    intro i ha hb h
    cases bs with
    | nil => exact absurd hb (Nat.not_lt_zero i)
    | cons b bs =>
      cases i with
      | zero => rfl
      | succ j =>
        exact ih j (Nat.lt_of_succ_lt_succ ha) (Nat.lt_of_succ_lt_succ hb)
          (Nat.lt_of_succ_lt_succ h)

/-! Lemmas about the two sankey builders. -/

theorem sa_to_sankey_data_eq (balances : List (String × Int))
    (ip ep ap lp : String) (oc : List String) :
    SankeyApp.to_sankey_data balances ip ep ap lp oc =
      exceptMap
        (SankeyApp.sankeyEntry (balances.map (fun e => e.1))
          ([ip, ep, ap, lp] ++ oc) ip) balances := rfl

theorem hl_to_sankey_data_eq (balances : List (String × Int))
    (iw ew aw lw : List String) :
    HledgerLit.to_sankey_data balances iw ew aw lw =
      exceptMap
        (HledgerLit.sankeyEntry (balances.map (fun e => e.1)) iw) balances := rfl

theorem sa_sankeyEdge_neg (ip name p : String) {bal : Int} (h : bal < 0) :
    SankeyApp.sankeyEdge ip name p bal = (name, p, |bal|) := by
  unfold SankeyApp.sankeyEdge
  split_ifs with h1 h2 <;> first | rfl | omega

theorem sa_sankeyEdge_nonneg (ip name p : String) {bal : Int} (h : 0 ≤ bal) :
    SankeyApp.sankeyEdge ip name p bal = (p, name, |bal|) := by
  unfold SankeyApp.sankeyEdge
  split_ifs with h1 h2 <;> first | rfl | omega

theorem hl_sankeyEdge_neg (iw : List String) (name p : String) {bal : Int}
    (h : bal < 0) :
    HledgerLit.sankeyEdge iw name p bal = (name, p, |bal|) := by
  unfold HledgerLit.sankeyEdge
  split_ifs with h1 h2 <;> first | rfl | omega

theorem hl_sankeyEdge_nonneg (iw : List String) (name p : String) {bal : Int}
    (h : 0 ≤ bal) :
    HledgerLit.sankeyEdge iw name p bal = (p, name, |bal|) := by
  unfold HledgerLit.sankeyEdge
  split_ifs with h1 h2 <;> first | rfl | omega

theorem sa_sankeyEntry_ok (accounts tl : List String) (ip : String)
    (entry : String × Int)
    (h : entry.1 ∉ tl → SankeyApp.parent entry.1 ∈ accounts) :
    ∃ y, SankeyApp.sankeyEntry accounts tl ip entry = Except.ok y := by
  by_cases hm : entry.1 ∈ tl
  · exact ⟨SankeyApp.sankeyEdge ip entry.1 "pot" entry.2,
      by simp [SankeyApp.sankeyEntry, hm]⟩
  · exact ⟨SankeyApp.sankeyEdge ip entry.1 (SankeyApp.parent entry.1) entry.2,
      by simp [SankeyApp.sankeyEntry, hm, h hm]⟩

theorem sa_sankeyEntry_error (accounts tl : List String) (ip : String)
    (entry : String × Int) (h1 : entry.1 ∉ tl)
    (h2 : SankeyApp.parent entry.1 ∉ accounts) :
    SankeyApp.sankeyEntry accounts tl ip entry =
      Except.error (SankeyApp.errMsg entry.1 (SankeyApp.parent entry.1)) := by
  simp [SankeyApp.sankeyEntry, h1, h2]

theorem sa_sankeyEntry_ok_inv {accounts tl : List String} {ip : String}
    {entry : String × Int} {y : String × String × Int}
    (h : SankeyApp.sankeyEntry accounts tl ip entry = Except.ok y) :
    ∃ p, ((entry.1 ∈ tl ∧ p = "pot") ∨
          (entry.1 ∉ tl ∧ p = SankeyApp.parent entry.1 ∧ p ∈ accounts)) ∧
      y = SankeyApp.sankeyEdge ip entry.1 p entry.2 := by
  by_cases hm : entry.1 ∈ tl
  · simp only [SankeyApp.sankeyEntry, if_pos hm] at h
    cases h
    exact ⟨"pot", Or.inl ⟨hm, rfl⟩, rfl⟩
  · simp only [SankeyApp.sankeyEntry, if_neg hm] at h
    by_cases hp : SankeyApp.parent entry.1 ∈ accounts
    · rw [if_pos hp] at h
      cases h
      exact ⟨_, Or.inr ⟨hm, rfl, hp⟩, rfl⟩
    · rw [if_neg hp] at h
      cases h

theorem hl_sankeyEntry_ok (accounts : List String) (iw : List String)
    (entry : String × Int)
    (h : substrIn ":" entry.1 = true → HledgerLit.parent entry.1 ∈ accounts) :
    ∃ y, HledgerLit.sankeyEntry accounts iw entry = Except.ok y := by
  by_cases hc : substrIn ":" entry.1 = true
  · exact ⟨HledgerLit.sankeyEdge iw entry.1 (HledgerLit.parent entry.1) entry.2,
      by simp [HledgerLit.sankeyEntry, hc, h hc]⟩
  · have hc' : substrIn ":" entry.1 = false := by
      cases hb : substrIn ":" entry.1
      · rfl
      · exact absurd hb hc
    exact ⟨HledgerLit.sankeyEdge iw entry.1 "pot" entry.2,
      by simp [HledgerLit.sankeyEntry, hc']⟩

theorem hl_sankeyEntry_error (accounts : List String) (iw : List String)
    (entry : String × Int) (h1 : substrIn ":" entry.1 = true)
    (h2 : HledgerLit.parent entry.1 ∉ accounts) :
    HledgerLit.sankeyEntry accounts iw entry =
      Except.error (HledgerLit.errMsg entry.1 (HledgerLit.parent entry.1)) := by
  simp [HledgerLit.sankeyEntry, h1, h2]

theorem hl_sankeyEntry_ok_inv {accounts iw : List String}
    {entry : String × Int} {y : String × String × Int}
    (h : HledgerLit.sankeyEntry accounts iw entry = Except.ok y) :
    ∃ p, ((substrIn ":" entry.1 = false ∧ p = "pot") ∨
          (substrIn ":" entry.1 = true ∧ p = HledgerLit.parent entry.1 ∧
            p ∈ accounts)) ∧
      y = HledgerLit.sankeyEdge iw entry.1 p entry.2 := by
  cases hc : substrIn ":" entry.1 with
  | false =>
    simp only [HledgerLit.sankeyEntry, hc, if_pos rfl] at h
    cases h
    exact ⟨"pot", Or.inl ⟨rfl, rfl⟩, rfl⟩
  | true =>
    simp only [HledgerLit.sankeyEntry, hc] at h
    by_cases hp : HledgerLit.parent entry.1 ∈ accounts
    · rw [if_pos hp] at h
      cases h
      exact ⟨_, Or.inr ⟨rfl, rfl, hp⟩, rfl⟩
    · rw [if_neg hp] at h
      cases h

theorem sa_sankeyEdge_val (ip name p : String) (bal : Int) :
    (SankeyApp.sankeyEdge ip name p bal).2.2 = |bal| := by
  unfold SankeyApp.sankeyEdge
  split_ifs <;> rfl

theorem hl_sankeyEdge_val (iw : List String) (name p : String) (bal : Int) :
    (HledgerLit.sankeyEdge iw name p bal).2.2 = |bal| := by
  unfold HledgerLit.sankeyEdge
  split_ifs <;> rfl

theorem sa_sankeyEdge_endpoints (ip name p : String) (bal : Int) :
    ((SankeyApp.sankeyEdge ip name p bal).1 = name ∨
      (SankeyApp.sankeyEdge ip name p bal).1 = p) ∧
    ((SankeyApp.sankeyEdge ip name p bal).2.1 = name ∨
      (SankeyApp.sankeyEdge ip name p bal).2.1 = p) := by
  unfold SankeyApp.sankeyEdge
  split_ifs <;> simp

theorem hl_sankeyEdge_endpoints (iw : List String) (name p : String) (bal : Int) :
    ((HledgerLit.sankeyEdge iw name p bal).1 = name ∨
      (HledgerLit.sankeyEdge iw name p bal).1 = p) ∧
    ((HledgerLit.sankeyEdge iw name p bal).2.1 = name ∨
      (HledgerLit.sankeyEdge iw name p bal).2.1 = p) := by
  unfold HledgerLit.sankeyEdge
  split_ifs <;> simp

/-- Claim C2: per balance entry both builders emit exactly one edge whose
direction is decided by category and sign: an income-like entry (income
pattern, or the virtual category, matches the name) with a negative balance
yields the edge account-to-parent and with a non-negative balance
parent-to-account; every other entry yields parent-to-account for a
non-negative balance and account-to-parent for a negative one.  Stated for
sankey_app's builder and hledger_lit's builder. -/
theorem claim_C2_direction_rule :
    (∀ (balances : List (String × Int)) (ip ep ap lp : String)
       (oc : List String) (out : List (String × String × Int)),
      SankeyApp.to_sankey_data balances ip ep ap lp oc = Except.ok out →
      out.length = balances.length ∧
      ∀ i (hi : i < balances.length) (hi' : i < out.length) (name : String)
        (bal : Int), balances.get ⟨i, hi⟩ = (name, bal) →
        ∃ p,
          ((name ∈ [ip, ep, ap, lp] ++ oc ∧ p = "pot") ∨
           (name ∉ [ip, ep, ap, lp] ++ oc ∧ p = SankeyApp.parent name)) ∧
          ((substrIn ip name || substrIn "virtual" name) = true →
             (bal < 0 → out.get ⟨i, hi'⟩ = (name, p, |bal|)) ∧
             (0 ≤ bal → out.get ⟨i, hi'⟩ = (p, name, |bal|))) ∧
          ((substrIn ip name || substrIn "virtual" name) = false →
             (0 ≤ bal → out.get ⟨i, hi'⟩ = (p, name, |bal|)) ∧
             (bal < 0 → out.get ⟨i, hi'⟩ = (name, p, |bal|)))) ∧
    (∀ (balances : List (String × Int)) (iw ew aw lw : List String)
       (out : List (String × String × Int)),
      HledgerLit.to_sankey_data balances iw ew aw lw = Except.ok out →
      out.length = balances.length ∧
      ∀ i (hi : i < balances.length) (hi' : i < out.length) (name : String)
        (bal : Int), balances.get ⟨i, hi⟩ = (name, bal) →
        ∃ p,
          ((substrIn ":" name = false ∧ p = "pot") ∨
           (substrIn ":" name = true ∧ p = HledgerLit.parent name)) ∧
          (anyWordIn iw name = true →
             (bal < 0 → out.get ⟨i, hi'⟩ = (name, p, |bal|)) ∧
             (0 ≤ bal → out.get ⟨i, hi'⟩ = (p, name, |bal|))) ∧
          (anyWordIn iw name = false →
             (0 ≤ bal → out.get ⟨i, hi'⟩ = (p, name, |bal|)) ∧
             (bal < 0 → out.get ⟨i, hi'⟩ = (name, p, |bal|)))) := by
  constructor
  · intro balances ip ep ap lp oc out h
    rw [sa_to_sankey_data_eq] at h
    refine ⟨exceptMap_ok_length h, ?_⟩
    intro i hi hi' name bal hget
    have hfi := exceptMap_ok_get h i hi hi'
    rw [hget] at hfi
    obtain ⟨p, hp, hy⟩ := sa_sankeyEntry_ok_inv hfi
    refine ⟨p, ?_, ?_, ?_⟩
    · rcases hp with ⟨hm, hpe⟩ | ⟨hm, hpe, _⟩
      · exact Or.inl ⟨hm, hpe⟩
      · exact Or.inr ⟨hm, hpe⟩
    · intro _
      exact ⟨fun hneg => by rw [hy]; exact sa_sankeyEdge_neg ip name p hneg,
        fun hpos => by rw [hy]; exact sa_sankeyEdge_nonneg ip name p hpos⟩
    · intro _
      exact ⟨fun hpos => by rw [hy]; exact sa_sankeyEdge_nonneg ip name p hpos,
        fun hneg => by rw [hy]; exact sa_sankeyEdge_neg ip name p hneg⟩
  · intro balances iw ew aw lw out h
    rw [hl_to_sankey_data_eq] at h
    refine ⟨exceptMap_ok_length h, ?_⟩
    intro i hi hi' name bal hget
    have hfi := exceptMap_ok_get h i hi hi'
    rw [hget] at hfi
    obtain ⟨p, hp, hy⟩ := hl_sankeyEntry_ok_inv hfi
    refine ⟨p, ?_, ?_, ?_⟩
    · rcases hp with ⟨hm, hpe⟩ | ⟨hm, hpe, _⟩
      · exact Or.inl ⟨hm, hpe⟩
      · exact Or.inr ⟨hm, hpe⟩
    · intro _
      exact ⟨fun hneg => by rw [hy]; exact hl_sankeyEdge_neg iw name p hneg,
        fun hpos => by rw [hy]; exact hl_sankeyEdge_nonneg iw name p hpos⟩
    · intro _
      exact ⟨fun hpos => by rw [hy]; exact hl_sankeyEdge_nonneg iw name p hpos,
        fun hneg => by rw [hy]; exact hl_sankeyEdge_neg iw name p hneg⟩

theorem claim_C2_direction_rule_witness :
    SankeyApp.to_sankey_data [("income", (-10 : Int)), ("expenses", 3)]
      "income" "expenses" "assets" "liabilities" [] =
      Except.ok [("income", "pot", 10), ("pot", "expenses", 3)] ∧
    HledgerLit.to_sankey_data [("income", (-10 : Int)), ("expenses", 3)]
      HledgerLit.INCOME_WORDS HledgerLit.EXPENSE_WORDS HledgerLit.ASSET_WORDS
      HledgerLit.LIABILITY_WORDS =
      Except.ok [("income", "pot", 10), ("pot", "expenses", 3)] ∧
    [("income", "pot", (10 : Int)), ("pot", "expenses", 3)].length =
      [("income", (-10 : Int)), ("expenses", 3)].length := by
  have e1 : SankeyApp.to_sankey_data [("income", (-10 : Int)), ("expenses", 3)]
      "income" "expenses" "assets" "liabilities" [] =
      Except.ok [("income", "pot", 10), ("pot", "expenses", 3)] := rfl
  have e2 : HledgerLit.to_sankey_data [("income", (-10 : Int)), ("expenses", 3)]
      HledgerLit.INCOME_WORDS HledgerLit.EXPENSE_WORDS HledgerLit.ASSET_WORDS
      HledgerLit.LIABILITY_WORDS =
      Except.ok [("income", "pot", 10), ("pot", "expenses", 3)] := rfl
  refine ⟨e1, e2, ?_⟩
  have h := (claim_C2_direction_rule.1 [("income", -10), ("expenses", 3)]
    "income" "expenses" "assets" "liabilities" []
    [("income", "pot", 10), ("pot", "expenses", 3)] e1).1
  have h2 := (claim_C2_direction_rule.2 [("income", -10), ("expenses", 3)]
    HledgerLit.INCOME_WORDS HledgerLit.EXPENSE_WORDS HledgerLit.ASSET_WORDS
    HledgerLit.LIABILITY_WORDS
    [("income", "pot", 10), ("pot", "expenses", 3)] e2).1
  exact h

/-- Claim C3: for both builders the magnitude of the edge produced for an
entry equals the absolute value of the entry's balance, and consequently
every edge magnitude of any successful output is non-negative. -/
theorem claim_C3_magnitude_abs :
    (∀ (balances : List (String × Int)) (ip ep ap lp : String)
       (oc : List String) (out : List (String × String × Int)),
      SankeyApp.to_sankey_data balances ip ep ap lp oc = Except.ok out →
      out.length = balances.length ∧
      (∀ i (hi : i < balances.length) (hi' : i < out.length),
        (out.get ⟨i, hi'⟩).2.2 = |(balances.get ⟨i, hi⟩).2|) ∧
      ∀ e ∈ out, 0 ≤ e.2.2) ∧
    (∀ (balances : List (String × Int)) (iw ew aw lw : List String)
       (out : List (String × String × Int)),
      HledgerLit.to_sankey_data balances iw ew aw lw = Except.ok out →
      out.length = balances.length ∧
      (∀ i (hi : i < balances.length) (hi' : i < out.length),
        (out.get ⟨i, hi'⟩).2.2 = |(balances.get ⟨i, hi⟩).2|) ∧
      ∀ e ∈ out, 0 ≤ e.2.2) := by
  constructor
  · intro balances ip ep ap lp oc out h
    rw [sa_to_sankey_data_eq] at h
    refine ⟨exceptMap_ok_length h, ?_, ?_⟩
    · intro i hi hi'
      have hfi := exceptMap_ok_get h i hi hi'
      obtain ⟨p, _, hy⟩ := sa_sankeyEntry_ok_inv hfi
      rw [hy, sa_sankeyEdge_val]
    · intro e he
      obtain ⟨x, _, hfx⟩ := exceptMap_mem h e he
      obtain ⟨p, _, hy⟩ := sa_sankeyEntry_ok_inv hfx
      rw [hy, sa_sankeyEdge_val]
      exact abs_nonneg x.2
  · intro balances iw ew aw lw out h
    rw [hl_to_sankey_data_eq] at h
    refine ⟨exceptMap_ok_length h, ?_, ?_⟩
    · intro i hi hi'
      have hfi := exceptMap_ok_get h i hi hi'
      obtain ⟨p, _, hy⟩ := hl_sankeyEntry_ok_inv hfi
      rw [hy, hl_sankeyEdge_val]
    · intro e he
      obtain ⟨x, _, hfx⟩ := exceptMap_mem h e he
      obtain ⟨p, _, hy⟩ := hl_sankeyEntry_ok_inv hfx
      rw [hy, hl_sankeyEdge_val]
      exact abs_nonneg x.2

theorem claim_C3_magnitude_abs_witness :
    SankeyApp.to_sankey_data [("expenses", (-4 : Int))]
      "income" "expenses" "assets" "liabilities" [] =
      Except.ok [("expenses", "pot", 4)] ∧
    (0 : Int) ≤ 4 := by
  have e1 : SankeyApp.to_sankey_data [("expenses", (-4 : Int))]
      "income" "expenses" "assets" "liabilities" [] =
      Except.ok [("expenses", "pot", 4)] := rfl
  refine ⟨e1, ?_⟩
  have h := (claim_C3_magnitude_abs.1 [("expenses", -4)]
    "income" "expenses" "assets" "liabilities" []
    [("expenses", "pot", 4)] e1).2.2 ("expenses", "pot", 4)
    (List.mem_singleton.mpr rfl)
  exact h

/-- Claim C1 counterexample: the hledger_lit builder, given the single
entry "foo" whose name matches none of the configured top-level categories
(neither by equality nor by containing any category word) and whose
computed parent, the empty string, does not occur among the account names,
nevertheless succeeds and returns an edge list instead of raising the
missing-ancestor error, because its top-level test is the absence of a
colon, not category membership. -/
theorem claim_C1_counterexample :
    HledgerLit.to_sankey_data [("foo", (5 : Int))] HledgerLit.INCOME_WORDS
        HledgerLit.EXPENSE_WORDS HledgerLit.ASSET_WORDS
        HledgerLit.LIABILITY_WORDS = Except.ok [("pot", "foo", 5)] ∧
    HledgerLit.parent "foo" = "" ∧
    anyWordIn (HledgerLit.INCOME_WORDS ++ HledgerLit.EXPENSE_WORDS ++
      HledgerLit.ASSET_WORDS ++ HledgerLit.LIABILITY_WORDS) "foo" = false ∧
    ("foo" : String) ∉ HledgerLit.INCOME_WORDS ++ HledgerLit.EXPENSE_WORDS ++
      HledgerLit.ASSET_WORDS ++ HledgerLit.LIABILITY_WORDS ∧
    ("" : String) ∉ ["foo"] := by
  exact ⟨rfl, rfl, by decide, by decide, by decide⟩

/-- Claim C1 amended: for the sankey_app builder the claim holds as stated
(the top-level test is membership in the configured categories); for the
hledger_lit builder the top-level test is instead the absence of a colon in
the account name, and the missing-ancestor error behaviour holds with that
test: if every entry whose name contains a colon has its stripped parent
among the account names, an edge list is returned, and if some such entry's
parent is absent, the builder fails with the error naming that entry and
its missing parent. -/
theorem claim_C1_amended_missing_parent :
    (∀ (balances : List (String × Int)) (ip ep ap lp : String)
       (oc : List String),
      (∀ e ∈ balances, e.1 ∉ [ip, ep, ap, lp] ++ oc →
        SankeyApp.parent e.1 ∈ balances.map (fun x => x.1)) →
      ∃ out, SankeyApp.to_sankey_data balances ip ep ap lp oc = Except.ok out) ∧
    (∀ (balances : List (String × Int)) (ip ep ap lp : String)
       (oc : List String),
      (∃ e ∈ balances, e.1 ∉ [ip, ep, ap, lp] ++ oc ∧
        SankeyApp.parent e.1 ∉ balances.map (fun x => x.1)) →
      ∃ e, e ∈ balances ∧ e.1 ∉ [ip, ep, ap, lp] ++ oc ∧
        SankeyApp.parent e.1 ∉ balances.map (fun x => x.1) ∧
        SankeyApp.to_sankey_data balances ip ep ap lp oc =
          Except.error (SankeyApp.errMsg e.1 (SankeyApp.parent e.1))) ∧
    (∀ (balances : List (String × Int)) (iw ew aw lw : List String),
      (∀ e ∈ balances, substrIn ":" e.1 = true →
        HledgerLit.parent e.1 ∈ balances.map (fun x => x.1)) →
      ∃ out, HledgerLit.to_sankey_data balances iw ew aw lw = Except.ok out) ∧
    (∀ (balances : List (String × Int)) (iw ew aw lw : List String),
      (∃ e ∈ balances, substrIn ":" e.1 = true ∧
        HledgerLit.parent e.1 ∉ balances.map (fun x => x.1)) →
      ∃ e, e ∈ balances ∧ substrIn ":" e.1 = true ∧
        HledgerLit.parent e.1 ∉ balances.map (fun x => x.1) ∧
        HledgerLit.to_sankey_data balances iw ew aw lw =
          Except.error (HledgerLit.errMsg e.1 (HledgerLit.parent e.1))) := by
  refine ⟨?_, ?_, ?_, ?_⟩
  · intro balances ip ep ap lp oc h
    simp only [sa_to_sankey_data_eq]
    exact exceptMap_ok_of_forall
      (fun x hx => sa_sankeyEntry_ok _ _ _ x (fun hm => h x hx hm))
  · intro balances ip ep ap lp oc hex
    have hbad : ∀ x : String × Int,
        (x.1 ∉ [ip, ep, ap, lp] ++ oc ∧
          SankeyApp.parent x.1 ∉ balances.map (fun e => e.1)) →
        SankeyApp.sankeyEntry (balances.map (fun e => e.1))
          ([ip, ep, ap, lp] ++ oc) ip x =
          Except.error (SankeyApp.errMsg x.1 (SankeyApp.parent x.1)) :=
      fun x hx => sa_sankeyEntry_error _ _ _ x hx.1 hx.2
    have hgood : ∀ x : String × Int,
        ¬ (x.1 ∉ [ip, ep, ap, lp] ++ oc ∧
          SankeyApp.parent x.1 ∉ balances.map (fun e => e.1)) →
        ∃ y, SankeyApp.sankeyEntry (balances.map (fun e => e.1))
          ([ip, ep, ap, lp] ++ oc) ip x = Except.ok y := by
      intro x hx
      refine sa_sankeyEntry_ok _ _ _ x ?_
      intro hm
      by_contra hp
      exact hx ⟨hm, hp⟩
    obtain ⟨e, he, hPe, herr⟩ := exceptMap_first_error _ _ hbad hgood hex
    exact ⟨e, he, hPe.1, hPe.2, by rw [sa_to_sankey_data_eq]; exact herr⟩
  · intro balances iw ew aw lw h
    simp only [hl_to_sankey_data_eq]
    exact exceptMap_ok_of_forall
      (fun x hx => hl_sankeyEntry_ok _ _ x (fun hm => h x hx hm))
  · intro balances iw ew aw lw hex
    have hbad : ∀ x : String × Int,
        (substrIn ":" x.1 = true ∧
          HledgerLit.parent x.1 ∉ balances.map (fun e => e.1)) →
        HledgerLit.sankeyEntry (balances.map (fun e => e.1)) iw x =
          Except.error (HledgerLit.errMsg x.1 (HledgerLit.parent x.1)) :=
      fun x hx => hl_sankeyEntry_error _ _ x hx.1 hx.2
    have hgood : ∀ x : String × Int,
        ¬ (substrIn ":" x.1 = true ∧
          HledgerLit.parent x.1 ∉ balances.map (fun e => e.1)) →
        ∃ y, HledgerLit.sankeyEntry (balances.map (fun e => e.1)) iw x =
          Except.ok y := by
      intro x hx
      refine hl_sankeyEntry_ok _ _ x ?_
      intro hm
      by_contra hp
      exact hx ⟨hm, hp⟩
    obtain ⟨e, he, hPe, herr⟩ := exceptMap_first_error _ _ hbad hgood hex
    exact ⟨e, he, hPe.1, hPe.2, by rw [hl_to_sankey_data_eq]; exact herr⟩

theorem claim_C1_amended_missing_parent_witness :
    (∃ out, SankeyApp.to_sankey_data [("expenses", (5 : Int))]
      "income" "expenses" "assets" "liabilities" [] = Except.ok out) ∧
    (∃ e, e ∈ [("expenses:food", (3 : Int))] ∧
      e.1 ∉ ["income", "expenses", "assets", "liabilities"] ++ ([] : List String) ∧
      SankeyApp.parent e.1 ∉
        [("expenses:food", (3 : Int))].map (fun x => x.1) ∧
      SankeyApp.to_sankey_data [("expenses:food", (3 : Int))]
        "income" "expenses" "assets" "liabilities" [] =
        Except.error (SankeyApp.errMsg e.1 (SankeyApp.parent e.1))) := by
  constructor
  · exact claim_C1_amended_missing_parent.1 [("expenses", 5)]
      "income" "expenses" "assets" "liabilities" [] (by decide)
  · exact claim_C1_amended_missing_parent.2.1 [("expenses:food", 3)]
      "income" "expenses" "assets" "liabilities" []
      ⟨("expenses:food", 3), by decide, by decide, by decide⟩

/-- Claim C4 counterexample: the correspondence between being a recognized
top-level category and having the synthetic root "pot" as the used parent
is not an equivalence.  For sankey_app, an account literally named "pot:x",
which is not a top-level category, gets the parent "pot" (its stripped
name); for hledger_lit, the colonless non-category account "bar" also gets
the parent "pot". -/
theorem claim_C4_counterexample :
    SankeyApp.to_sankey_data [("", (1 : Int)), ("pot", 2), ("pot:x", 3)]
        "income" "expenses" "assets" "liabilities" ["revenues", "virtual"] =
      Except.ok [("", "", 1), ("", "pot", 2), ("pot", "pot:x", 3)] ∧
    ("pot:x" : String) ∉
      ["income", "expenses", "assets", "liabilities"] ++
        ["revenues", "virtual"] ∧
    HledgerLit.to_sankey_data [("bar", (3 : Int))] HledgerLit.INCOME_WORDS
        HledgerLit.EXPENSE_WORDS HledgerLit.ASSET_WORDS
        HledgerLit.LIABILITY_WORDS = Except.ok [("pot", "bar", 3)] ∧
    anyWordIn (HledgerLit.INCOME_WORDS ++ HledgerLit.EXPENSE_WORDS ++
      HledgerLit.ASSET_WORDS ++ HledgerLit.LIABILITY_WORDS) "bar" = false ∧
    ("bar" : String) ∉ HledgerLit.INCOME_WORDS ++ HledgerLit.EXPENSE_WORDS ++
      HledgerLit.ASSET_WORDS ++ HledgerLit.LIABILITY_WORDS := by
  exact ⟨rfl, by decide, rfl, by decide, by decide⟩

/-- Claim C4 amended: the parent used for an entry's edge is "pot" if the
name passes the builder's top-level test (sankey_app: membership in the
configured category list; hledger_lit: the name contains no colon), and
otherwise is the name with its last colon-delimited segment stripped; the
converse of the pot clause fails when a non-top-level name's stripped
parent is itself literally "pot". -/
theorem claim_C4_amended_parent_rule :
    (∀ (balances : List (String × Int)) (ip ep ap lp : String)
       (oc : List String) (out : List (String × String × Int)),
      SankeyApp.to_sankey_data balances ip ep ap lp oc = Except.ok out →
      ∀ i (hi : i < balances.length) (hi' : i < out.length) (name : String)
        (bal : Int), balances.get ⟨i, hi⟩ = (name, bal) →
        (name ∈ [ip, ep, ap, lp] ++ oc →
          out.get ⟨i, hi'⟩ = (name, "pot", |bal|) ∨
          out.get ⟨i, hi'⟩ = ("pot", name, |bal|)) ∧
        (name ∉ [ip, ep, ap, lp] ++ oc →
          out.get ⟨i, hi'⟩ = (name, SankeyApp.parent name, |bal|) ∨
          out.get ⟨i, hi'⟩ = (SankeyApp.parent name, name, |bal|))) ∧
    (∀ (balances : List (String × Int)) (iw ew aw lw : List String)
       (out : List (String × String × Int)),
      HledgerLit.to_sankey_data balances iw ew aw lw = Except.ok out →
      ∀ i (hi : i < balances.length) (hi' : i < out.length) (name : String)
        (bal : Int), balances.get ⟨i, hi⟩ = (name, bal) →
        (substrIn ":" name = false →
          out.get ⟨i, hi'⟩ = (name, "pot", |bal|) ∨
          out.get ⟨i, hi'⟩ = ("pot", name, |bal|)) ∧
        (substrIn ":" name = true →
          out.get ⟨i, hi'⟩ = (name, HledgerLit.parent name, |bal|) ∨
          out.get ⟨i, hi'⟩ = (HledgerLit.parent name, name, |bal|))) := by
  constructor
  · intro balances ip ep ap lp oc out h i hi hi' name bal hget
    rw [sa_to_sankey_data_eq] at h
    have hfi := exceptMap_ok_get h i hi hi'
    rw [hget] at hfi
    obtain ⟨p, hp, hy⟩ := sa_sankeyEntry_ok_inv hfi
    constructor
    · intro hmem
      rcases hp with ⟨_, rfl⟩ | ⟨hnm, _, _⟩
      · rcases lt_or_le bal 0 with hneg | hpos
        · exact Or.inl (by rw [hy]; exact sa_sankeyEdge_neg ip name _ hneg)
        · exact Or.inr (by rw [hy]; exact sa_sankeyEdge_nonneg ip name _ hpos)
      · exact absurd hmem hnm
    · intro hmem
      rcases hp with ⟨hm, _⟩ | ⟨_, rfl, _⟩
      · exact absurd hm hmem
      · rcases lt_or_le bal 0 with hneg | hpos
        · exact Or.inl (by rw [hy]; exact sa_sankeyEdge_neg ip name _ hneg)
        · exact Or.inr (by rw [hy]; exact sa_sankeyEdge_nonneg ip name _ hpos)
  · intro balances iw ew aw lw out h i hi hi' name bal hget
    rw [hl_to_sankey_data_eq] at h
    have hfi := exceptMap_ok_get h i hi hi'
    rw [hget] at hfi
    obtain ⟨p, hp, hy⟩ := hl_sankeyEntry_ok_inv hfi
    constructor
    · intro hcol
      rcases hp with ⟨_, rfl⟩ | ⟨hc, _, _⟩
      · rcases lt_or_le bal 0 with hneg | hpos
        · exact Or.inl (by rw [hy]; exact hl_sankeyEdge_neg iw name _ hneg)
        · exact Or.inr (by rw [hy]; exact hl_sankeyEdge_nonneg iw name _ hpos)
      · rw [hcol] at hc; cases hc
    · intro hcol
      rcases hp with ⟨hc, _⟩ | ⟨_, rfl, _⟩
      · rw [hcol] at hc; cases hc
      · rcases lt_or_le bal 0 with hneg | hpos
        · exact Or.inl (by rw [hy]; exact hl_sankeyEdge_neg iw name _ hneg)
        · exact Or.inr (by rw [hy]; exact hl_sankeyEdge_nonneg iw name _ hpos)

theorem claim_C4_amended_parent_rule_witness :
    SankeyApp.to_sankey_data [("assets", (7 : Int))]
      "income" "expenses" "assets" "liabilities" [] =
      Except.ok [("pot", "assets", 7)] ∧
    ([("pot", "assets", (7 : Int))].get ⟨0, by decide⟩ =
        ("assets", "pot", |(7 : Int)|) ∨
      [("pot", "assets", (7 : Int))].get ⟨0, by decide⟩ =
        ("pot", "assets", |(7 : Int)|)) := by
  have e1 : SankeyApp.to_sankey_data [("assets", (7 : Int))]
      "income" "expenses" "assets" "liabilities" [] =
      Except.ok [("pot", "assets", 7)] := rfl
  refine ⟨e1, ?_⟩
  exact (claim_C4_amended_parent_rule.1 [("assets", 7)]
    "income" "expenses" "assets" "liabilities" [] [("pot", "assets", 7)] e1
    0 (by decide) (by decide) "assets" 7 rfl).1 (by decide)

/-- Claim C10: whenever either builder returns normally, every node name
occurring as a source or target of a produced edge is either the literal
string "pot" or an account name occurring in the input balance list. -/
theorem claim_C10_node_closure :
    (∀ (balances : List (String × Int)) (ip ep ap lp : String)
       (oc : List String) (out : List (String × String × Int)),
      SankeyApp.to_sankey_data balances ip ep ap lp oc = Except.ok out →
      ∀ s t v, (s, t, v) ∈ out →
        (s = "pot" ∨ s ∈ balances.map (fun e => e.1)) ∧
        (t = "pot" ∨ t ∈ balances.map (fun e => e.1))) ∧
    (∀ (balances : List (String × Int)) (iw ew aw lw : List String)
       (out : List (String × String × Int)),
      HledgerLit.to_sankey_data balances iw ew aw lw = Except.ok out →
      ∀ s t v, (s, t, v) ∈ out →
        (s = "pot" ∨ s ∈ balances.map (fun e => e.1)) ∧
        (t = "pot" ∨ t ∈ balances.map (fun e => e.1))) := by
  constructor
  · intro balances ip ep ap lp oc out h s t v hmem
    rw [sa_to_sankey_data_eq] at h
    obtain ⟨x, hx, hfx⟩ := exceptMap_mem h (s, t, v) hmem
    obtain ⟨p, hp, hy⟩ := sa_sankeyEntry_ok_inv hfx
    have hname : x.1 ∈ balances.map (fun e => e.1) :=
      List.mem_map_of_mem (fun e => e.1) hx
    have hpot : p = "pot" ∨ p ∈ balances.map (fun e => e.1) := by
      rcases hp with ⟨_, rfl⟩ | ⟨_, _, hmm⟩
      · exact Or.inl rfl
      · exact Or.inr hmm
    have hends := sa_sankeyEdge_endpoints ip x.1 p x.2
    rw [← hy] at hends
    constructor
    · rcases hends.1 with hs | hs
      · exact Or.inr (by rw [show s = x.1 from hs]; exact hname)
      · rw [show s = p from hs]; exact hpot
    · rcases hends.2 with ht | ht
      · exact Or.inr (by rw [show t = x.1 from ht]; exact hname)
      · rw [show t = p from ht]; exact hpot
  · intro balances iw ew aw lw out h s t v hmem
    rw [hl_to_sankey_data_eq] at h
    obtain ⟨x, hx, hfx⟩ := exceptMap_mem h (s, t, v) hmem
    obtain ⟨p, hp, hy⟩ := hl_sankeyEntry_ok_inv hfx
    have hname : x.1 ∈ balances.map (fun e => e.1) :=
      List.mem_map_of_mem (fun e => e.1) hx
    have hpot : p = "pot" ∨ p ∈ balances.map (fun e => e.1) := by
      rcases hp with ⟨_, rfl⟩ | ⟨_, _, hmm⟩
      · exact Or.inl rfl
      · exact Or.inr hmm
    have hends := hl_sankeyEdge_endpoints iw x.1 p x.2
    rw [← hy] at hends
    constructor
    · rcases hends.1 with hs | hs
      · exact Or.inr (by rw [show s = x.1 from hs]; exact hname)
      · rw [show s = p from hs]; exact hpot
    · rcases hends.2 with ht | ht
      · exact Or.inr (by rw [show t = x.1 from ht]; exact hname)
      · rw [show t = p from ht]; exact hpot

theorem claim_C10_node_closure_witness :
    SankeyApp.to_sankey_data [("assets", (500 : Int)), ("assets:cash", 500)]
      "income" "expenses" "assets" "liabilities" [] =
      Except.ok [("pot", "assets", 500), ("assets", "assets:cash", 500)] ∧
    (("pot" : String) = "pot" ∨ ("pot" : String) ∈
      [("assets", (500 : Int)), ("assets:cash", 500)].map (fun e => e.1)) := by
  have e1 : SankeyApp.to_sankey_data
      [("assets", (500 : Int)), ("assets:cash", 500)]
      "income" "expenses" "assets" "liabilities" [] =
      Except.ok [("pot", "assets", 500), ("assets", "assets:cash", 500)] := rfl
  refine ⟨e1, ?_⟩
  exact (claim_C10_node_closure.1 [("assets", 500), ("assets:cash", 500)]
    "income" "expenses" "assets" "liabilities" []
    [("pot", "assets", 500), ("assets", "assets:cash", 500)] e1
    "pot" "assets" 500 (by simp)).1

/-! Lemmas about the two historical readers. -/

theorem sa_read_historical_balances_eq (dates : List String)
    (rows : List (String × List (List (String × Int))))
    (c ip ep ap lp : String) (oc : List String) :
    SankeyApp.read_historical_balances dates rows c ip ep ap lp oc =
      (dates,
        match
          lookupD (SankeyApp.histBalAux c ([ip, ep, ap, lp] ++ oc) rows []) ap,
          lookupD (SankeyApp.histBalAux c ([ip, ep, ap, lp] ++ oc) rows []) lp
        with
        | some assets, some liabilities =>
          insertDict (SankeyApp.histBalAux c ([ip, ep, ap, lp] ++ oc) rows [])
            "net_worth" (List.zipWith (fun a l => a - l) assets liabilities)
        | some assets, none =>
          insertDict (SankeyApp.histBalAux c ([ip, ep, ap, lp] ++ oc) rows [])
            "net_worth" assets
        | none, _ =>
          SankeyApp.histBalAux c ([ip, ep, ap, lp] ++ oc) rows []) := rfl

theorem hl_read_historical_balances_eq (dates : List String)
    (rows : List (String × List (List (String × Int))))
    (c : String) (iw ew aw lw : List String) :
    HledgerLit.read_historical_balances dates rows c iw ew aw lw =
      (dates,
        insertDict
          (HledgerLit.histStateAux c (iw ++ ew ++ aw ++ lw) aw lw rows []
            (List.replicate dates.length 0)).1
          "net_worth"
          (HledgerLit.histStateAux c (iw ++ ew ++ aw ++ lw) aw lw rows []
            (List.replicate dates.length 0)).2) := rfl

theorem sa_histBalAux_lookup_some {c : String} {tl : List String} :
    ∀ {rows : List (String × List (List (String × Int)))}
      {acc : List (String × List Int)} {k : String} {v : List Int},
      lookupD (SankeyApp.histBalAux c tl rows acc) k = some v →
      (∃ ams, (k, ams) ∈ rows ∧ k ∈ tl ∧
        v = ams.map (SankeyApp.periodBalance c)) ∨
      lookupD acc k = some v := by
  intro rows
  induction rows with
  | nil => intro acc k v h; exact Or.inr h
  | cons row rest ih =>
    intro acc k v h
    by_cases hm : row.1 ∈ tl
    · rw [SankeyApp.histBalAux, if_pos hm] at h
      rcases ih h with ⟨ams, hams, hk, hv⟩ | hacc
      · exact Or.inl ⟨ams, List.mem_cons_of_mem row hams, hk, hv⟩
      · by_cases hkr : k = row.1
        · subst hkr
          rw [lookupD_insertDict_self] at hacc
          cases hacc
          exact Or.inl ⟨row.2, by simp, hm, rfl⟩
        · rw [lookupD_insertDict_ne acc _ (fun he => hkr he.symm)] at hacc
          exact Or.inr hacc
    · rw [SankeyApp.histBalAux, if_neg hm] at h
      rcases ih h with ⟨ams, hams, hk, hv⟩ | hacc
      · exact Or.inl ⟨ams, List.mem_cons_of_mem row hams, hk, hv⟩
      · exact Or.inr hacc

theorem sa_histBalAux_isSome_mono {c : String} {tl : List String} :
    ∀ {rows : List (String × List (List (String × Int)))}
      {acc : List (String × List Int)} {k : String},
      (lookupD acc k).isSome = true →
      (lookupD (SankeyApp.histBalAux c tl rows acc) k).isSome = true := by
  intro rows
  induction rows with
  | nil => intro acc k h; exact h
  | cons row rest ih =>
    intro acc k h
    by_cases hm : row.1 ∈ tl
    · rw [SankeyApp.histBalAux, if_pos hm]
      exact ih ((lookupD_insertDict_isSome acc row.1 k _).mpr (Or.inr h))
    · rw [SankeyApp.histBalAux, if_neg hm]
      exact ih h

theorem sa_histBalAux_isSome_of_mem {c : String} {tl : List String} :
    ∀ {rows : List (String × List (List (String × Int)))}
      {acc : List (String × List Int)}
      {row : String × List (List (String × Int))},
      row ∈ rows → row.1 ∈ tl →
      (lookupD (SankeyApp.histBalAux c tl rows acc) row.1).isSome = true := by
  intro rows
  induction rows with
  | nil => intro acc row h; cases h
  | cons r rest ih =>
    intro acc row h hm
    rcases List.mem_cons.mp h with rfl | hr
    · rw [SankeyApp.histBalAux, if_pos hm]
      exact sa_histBalAux_isSome_mono
        ((lookupD_insertDict_isSome acc row.1 row.1 _).mpr (Or.inl rfl))
    · by_cases hmr : r.1 ∈ tl
      · rw [SankeyApp.histBalAux, if_pos hmr]
        exact ih hr hm
      · rw [SankeyApp.histBalAux, if_neg hmr]
        exact ih hr hm

theorem hl_histStateAux_fst_lookup_some {c : String}
    {words aw lw : List String} :
    ∀ {rows : List (String × List (List (String × Int)))}
      {bal : List (String × List Int)} {nw : List Int} {k : String}
      {v : List Int},
      lookupD (HledgerLit.histStateAux c words aw lw rows bal nw).1 k = some v →
      (∃ ams, (k, ams) ∈ rows ∧ anyWordIn words k = true ∧
        v = ams.map (HledgerLit.periodBalance c)) ∨
      lookupD bal k = some v := by
  intro rows
  induction rows with
  | nil => intro bal nw k v h; exact Or.inr h
  | cons row rest ih =>
    intro bal nw k v h
    by_cases hm : anyWordIn words row.1 = true
    · rw [HledgerLit.histStateAux] at h
      simp only [hm, if_true] at h
      rcases ih h with ⟨ams, hams, hk, hv⟩ | hacc
      · exact Or.inl ⟨ams, List.mem_cons_of_mem row hams, hk, hv⟩
      · by_cases hkr : k = row.1
        · subst hkr
          rw [lookupD_insertDict_self] at hacc
          cases hacc
          exact Or.inl ⟨row.2, by simp, hm, rfl⟩
        · rw [lookupD_insertDict_ne bal _ (fun he => hkr he.symm)] at hacc
          exact Or.inr hacc
    · rw [HledgerLit.histStateAux] at h
      simp only [hm, if_false] at h
      rcases ih h with ⟨ams, hams, hk, hv⟩ | hacc
      · exact Or.inl ⟨ams, List.mem_cons_of_mem row hams, hk, hv⟩
      · exact Or.inr hacc

theorem hl_histStateAux_fst_isSome_mono {c : String}
    {words aw lw : List String} :
    ∀ {rows : List (String × List (List (String × Int)))}
      {bal : List (String × List Int)} {nw : List Int} {k : String},
      (lookupD bal k).isSome = true →
      (lookupD (HledgerLit.histStateAux c words aw lw rows bal nw).1 k).isSome
        = true := by
  intro rows
  induction rows with
  | nil => intro bal nw k h; exact h
  | cons row rest ih =>
    intro bal nw k h
    by_cases hm : anyWordIn words row.1 = true
    · rw [HledgerLit.histStateAux]
      simp only [hm, if_true]
      exact ih ((lookupD_insertDict_isSome bal row.1 k _).mpr (Or.inr h))
    · rw [HledgerLit.histStateAux]
      simp only [hm, if_false]
      exact ih h

theorem hl_histStateAux_fst_isSome_of_mem {c : String}
    {words aw lw : List String} :
    ∀ {rows : List (String × List (List (String × Int)))}
      {bal : List (String × List Int)} {nw : List Int}
      {row : String × List (List (String × Int))},
      row ∈ rows → anyWordIn words row.1 = true →
      (lookupD (HledgerLit.histStateAux c words aw lw rows bal nw).1
        row.1).isSome = true := by
  intro rows
  induction rows with
  | nil => intro bal nw row h; cases h
  | cons r rest ih =>
    intro bal nw row h hm
    rcases List.mem_cons.mp h with rfl | hr
    · rw [HledgerLit.histStateAux]
      simp only [hm, if_true]
      exact hl_histStateAux_fst_isSome_mono
        ((lookupD_insertDict_isSome bal row.1 row.1 _).mpr (Or.inl rfl))
    · by_cases hmr : anyWordIn words r.1 = true
      · rw [HledgerLit.histStateAux]
        simp only [hmr, if_true]
        exact ih hr hm
      · rw [HledgerLit.histStateAux]
        simp only [hmr, if_false]
        exact ih hr hm

theorem hl_histStateAux_snd_unchanged {c : String}
    {words aw lw : List String} :
    ∀ {rows : List (String × List (List (String × Int)))}
      {bal : List (String × List Int)} {nw : List Int},
      (∀ row ∈ rows, anyWordIn aw row.1 = false ∧ anyWordIn lw row.1 = false) →
      (HledgerLit.histStateAux c words aw lw rows bal nw).2 = nw := by
  intro rows
  induction rows with
  | nil => intro bal nw _; rfl
  | cons row rest ih =>
    intro bal nw h
    obtain ⟨ha, hl⟩ := h row (List.mem_cons_self row rest)
    have hrest := fun r hr => h r (List.mem_cons_of_mem row hr)
    by_cases hm : anyWordIn words row.1 = true
    · rw [HledgerLit.histStateAux]
      simp only [hm, if_true, ha, hl, Bool.false_eq_true, if_false]
      exact ih hrest
    · rw [HledgerLit.histStateAux]
      simp only [hm, if_false]
      exact ih hrest

/-- Claim C5 counterexample: hledger_lit's historical reader, given no rows
at all (so neither an asset nor a liability series is present), still
produces a net-worth series (the all-zero series), because it
unconditionally stores its running net-worth accumulator. -/
theorem claim_C5_counterexample :
    (HledgerLit.read_historical_balances ["d1", "d2"] [] "USD"
      HledgerLit.INCOME_WORDS HledgerLit.EXPENSE_WORDS HledgerLit.ASSET_WORDS
      HledgerLit.LIABILITY_WORDS).2 = [("net_worth", [0, 0])] := rfl

/-- Claim C5 amended: sankey_app's reader behaves exactly as the claim
states (assets minus liabilities index by index when both series are
retained, a copy of the asset series when only it is retained, and the
mapping left unchanged when the asset series is absent), while
hledger_lit's reader always produces a net-worth series: it stores its
running accumulator unconditionally, and when no retained row matches the
asset or liability words that series is the all-zero series, one zero per
period date. -/
theorem claim_C5_amended_net_worth :
    (∀ (dates : List String)
       (rows : List (String × List (List (String × Int))))
       (c ip ep ap lp : String) (oc : List String)
       (assets liabilities : List Int),
      lookupD (SankeyApp.histBalAux c ([ip, ep, ap, lp] ++ oc) rows []) ap =
        some assets →
      lookupD (SankeyApp.histBalAux c ([ip, ep, ap, lp] ++ oc) rows []) lp =
        some liabilities →
      ∃ nw, lookupD
          (SankeyApp.read_historical_balances dates rows c ip ep ap lp oc).2
          "net_worth" = some nw ∧
        nw = List.zipWith (fun a l => a - l) assets liabilities ∧
        ∀ i (h1 : i < assets.length) (h2 : i < liabilities.length)
          (h3 : i < nw.length),
          nw.get ⟨i, h3⟩ = assets.get ⟨i, h1⟩ - liabilities.get ⟨i, h2⟩) ∧
    (∀ (dates : List String)
       (rows : List (String × List (List (String × Int))))
       (c ip ep ap lp : String) (oc : List String) (assets : List Int),
      lookupD (SankeyApp.histBalAux c ([ip, ep, ap, lp] ++ oc) rows []) ap =
        some assets →
      lookupD (SankeyApp.histBalAux c ([ip, ep, ap, lp] ++ oc) rows []) lp =
        none →
      lookupD (SankeyApp.read_historical_balances dates rows c ip ep ap lp
        oc).2 "net_worth" = some assets) ∧
    (∀ (dates : List String)
       (rows : List (String × List (List (String × Int))))
       (c ip ep ap lp : String) (oc : List String),
      lookupD (SankeyApp.histBalAux c ([ip, ep, ap, lp] ++ oc) rows []) ap =
        none →
      (SankeyApp.read_historical_balances dates rows c ip ep ap lp oc).2 =
        SankeyApp.histBalAux c ([ip, ep, ap, lp] ++ oc) rows []) ∧
    (∀ (dates : List String)
       (rows : List (String × List (List (String × Int))))
       (c : String) (iw ew aw lw : List String),
      ∃ nw, lookupD
        (HledgerLit.read_historical_balances dates rows c iw ew aw lw).2
        "net_worth" = some nw) ∧
    (∀ (dates : List String)
       (rows : List (String × List (List (String × Int))))
       (c : String) (iw ew aw lw : List String),
      (∀ row ∈ rows, anyWordIn aw row.1 = false ∧ anyWordIn lw row.1 = false) →
      lookupD (HledgerLit.read_historical_balances dates rows c iw ew aw lw).2
        "net_worth" = some (List.replicate dates.length 0)) := by
  refine ⟨?_, ?_, ?_, ?_, ?_⟩
  · intro dates rows c ip ep ap lp oc assets liabilities h1 h2
    rw [sa_read_historical_balances_eq]
    simp only [h1, h2]
    refine ⟨List.zipWith (fun a l => a - l) assets liabilities,
      lookupD_insertDict_self _ _ _, rfl, ?_⟩
    intro i ha hl h3
    exact zipWith_get_eq i ha hl h3
  · intro dates rows c ip ep ap lp oc assets h1 h2
    rw [sa_read_historical_balances_eq]
    simp only [h1, h2]
    exact lookupD_insertDict_self _ _ _
  · intro dates rows c ip ep ap lp oc h1
    rw [sa_read_historical_balances_eq]
    simp only [h1]
  · intro dates rows c iw ew aw lw
    rw [hl_read_historical_balances_eq]
    exact ⟨_, lookupD_insertDict_self _ _ _⟩
  · intro dates rows c iw ew aw lw h
    rw [hl_read_historical_balances_eq]
    have hsnd := @hl_histStateAux_snd_unchanged c (iw ++ ew ++ aw ++ lw)
      aw lw rows [] (List.replicate dates.length 0) h
    rw [hsnd]
    exact lookupD_insertDict_self _ _ _

theorem claim_C5_amended_net_worth_witness :
    ∃ nw, lookupD (SankeyApp.read_historical_balances ["d1", "d2"]
        [("assets", [[("USD", (100 : Int))], [("USD", 120)]]),
         ("liabilities", [[("USD", (30 : Int))], [("USD", 40)]])]
        "USD" "income" "expenses" "assets" "liabilities" []).2 "net_worth" =
      some nw ∧
    nw = List.zipWith (fun a l => a - l) [(100 : Int), 120] [(30 : Int), 40] ∧
    ∀ i (h1 : i < [(100 : Int), 120].length)
      (h2 : i < [(30 : Int), 40].length) (h3 : i < nw.length),
      nw.get ⟨i, h3⟩ =
        [(100 : Int), 120].get ⟨i, h1⟩ - [(30 : Int), 40].get ⟨i, h2⟩ := by
  exact claim_C5_amended_net_worth.1 ["d1", "d2"]
    [("assets", [[("USD", 100)], [("USD", 120)]]),
     ("liabilities", [[("USD", 30)], [("USD", 40)]])]
    "USD" "income" "expenses" "assets" "liabilities" [] [100, 120] [30, 40]
    rfl rfl

/-- Claim C6 counterexample: hledger_lit's historical reader retains the
row "assets:cash", although that name is not exactly equal to any
configured top-level identifier: it merely contains the identifier
"assets" as a proper substring. -/
theorem claim_C6_counterexample :
    lookupD (HledgerLit.read_historical_balances ["d1"]
        [("assets:cash", [[("USD", (5 : Int))]])] "USD"
        HledgerLit.INCOME_WORDS HledgerLit.EXPENSE_WORDS
        HledgerLit.ASSET_WORDS HledgerLit.LIABILITY_WORDS).2 "assets:cash" =
      some [5] ∧
    ("assets:cash" : String) ∉ HledgerLit.INCOME_WORDS ++
      HledgerLit.EXPENSE_WORDS ++ HledgerLit.ASSET_WORDS ++
      HledgerLit.LIABILITY_WORDS ∧
    substrIn "assets" "assets:cash" = true ∧
    ("assets:cash" : String) ≠ "assets" := by
  exact ⟨rfl, by decide, by decide, by decide⟩

/-- Claim C6 amended: sankey_app's historical reader retains a
periodic-report row exactly when its name is exactly equal to one of the
configured top-level category identifiers, while hledger_lit's historical
reader retains a row exactly when the name matches the configured word
patterns as a substring, so a row that merely contains an identifier is
retained by it. -/
theorem claim_C6_amended_retention :
    (∀ (rows : List (String × List (List (String × Int))))
       (c ip ep ap lp : String) (oc : List String),
      ∀ row ∈ rows,
        ((lookupD (SankeyApp.histBalAux c ([ip, ep, ap, lp] ++ oc) rows [])
          row.1).isSome = true ↔ row.1 ∈ [ip, ep, ap, lp] ++ oc)) ∧
    (∀ (rows : List (String × List (List (String × Int))))
       (c : String) (iw ew aw lw : List String) (nw0 : List Int),
      ∀ row ∈ rows,
        ((lookupD (HledgerLit.histStateAux c (iw ++ ew ++ aw ++ lw) aw lw rows
          [] nw0).1 row.1).isSome = true ↔
          anyWordIn (iw ++ ew ++ aw ++ lw) row.1 = true)) := by
  constructor
  · intro rows c ip ep ap lp oc row hrow
    constructor
    · intro h
      obtain ⟨v, hv⟩ := Option.isSome_iff_exists.mp h
      rcases sa_histBalAux_lookup_some hv with ⟨_, _, hk, _⟩ | hacc
      · exact hk
      · simp [lookupD] at hacc
    · intro h
      exact sa_histBalAux_isSome_of_mem hrow h
  · intro rows c iw ew aw lw nw0 row hrow
    constructor
    · intro h
      obtain ⟨v, hv⟩ := Option.isSome_iff_exists.mp h
      rcases hl_histStateAux_fst_lookup_some hv with ⟨_, _, hk, _⟩ | hacc
      · exact hk
      · simp [lookupD] at hacc
    · intro h
      exact hl_histStateAux_fst_isSome_of_mem hrow h

theorem claim_C6_amended_retention_witness :
    (lookupD (SankeyApp.histBalAux "USD"
      (["income", "expenses", "assets", "liabilities"] ++ [])
      [("assets", [[("USD", (7 : Int))]])] []) "assets").isSome = true ∧
    (lookupD (HledgerLit.histStateAux "USD"
      (HledgerLit.INCOME_WORDS ++ HledgerLit.EXPENSE_WORDS ++
        HledgerLit.ASSET_WORDS ++ HledgerLit.LIABILITY_WORDS)
      HledgerLit.ASSET_WORDS HledgerLit.LIABILITY_WORDS
      [("assets:cash", [[("USD", (7 : Int))]])] [] [0]).1
      "assets:cash").isSome = true := by
  constructor
  · exact (claim_C6_amended_retention.1 [("assets", [[("USD", 7)]])]
      "USD" "income" "expenses" "assets" "liabilities" []
      ("assets", [[("USD", 7)]])
      (List.mem_singleton.mpr rfl)).mpr (by decide)
  · exact (claim_C6_amended_retention.2 [("assets:cash", [[("USD", 7)]])]
      "USD" HledgerLit.INCOME_WORDS HledgerLit.EXPENSE_WORDS
      HledgerLit.ASSET_WORDS HledgerLit.LIABILITY_WORDS [0]
      ("assets:cash", [[("USD", 7)]])
      (List.mem_singleton.mpr rfl)).mpr (by decide)

theorem find?_append_first {α : Type} (p : α → Bool) :
    ∀ (pre : List α) (a : α) (post : List α), p a = true →
      (∀ b ∈ pre, p b = false) →
      List.find? p (pre ++ a :: post) = some a := by
  intro pre
  induction pre with
  | nil =>
    intro a post ha _
    exact List.find?_cons_of_pos post ha
  | cons b pre ih =>
    intro a post ha hb
    have hbf : ¬ p b = true := by
      simp [hb b (List.mem_cons_self b pre)]
    rw [List.cons_append, List.find?_cons_of_neg _ hbf]
    exact ih a post ha (fun x hx => hb x (List.mem_cons_of_mem b hx))

theorem map_get_eq {α β : Type} (f : α → β) :
    ∀ (l : List α) (i : Nat) (h : i < l.length) (h' : i < (l.map f).length),
      (l.map f).get ⟨i, h'⟩ = f (l.get ⟨i, h⟩) := by
  intro l
  induction l with
  | nil => intro i h; exact absurd h (Nat.not_lt_zero i)
  | cons a l ih =>
    intro i h h'
    cases i with
    | zero => rfl
    | succ j =>
      exact ih j (Nat.lt_of_succ_lt_succ h) (Nat.lt_of_succ_lt_succ h')

/-- Claim C7: in both historical readers, the stored series of every
retained row is the per-period rule applied to that row's amount lists, and
the per-period rule yields the absolute value of the first amount whose
commodity equals the requested one, and exactly zero, without any error,
when the amount list is empty or contains no amount in that commodity. -/
theorem claim_C7_period_magnitude :
    (∀ (c : String) (pre post : List (String × Int)) (a : String × Int),
      a.1 = c → (∀ b ∈ pre, b.1 ≠ c) →
      SankeyApp.periodBalance c (pre ++ a :: post) = |a.2| ∧
      HledgerLit.periodBalance c (pre ++ a :: post) = |a.2|) ∧
    (∀ (c : String) (al : List (String × Int)),
      (∀ b ∈ al, b.1 ≠ c) →
      SankeyApp.periodBalance c al = 0 ∧ HledgerLit.periodBalance c al = 0) ∧
    (∀ (c : String) (tl : List String)
       (rows : List (String × List (List (String × Int))))
       (k : String) (series : List Int),
      lookupD (SankeyApp.histBalAux c tl rows []) k = some series →
      ∃ ams, (k, ams) ∈ rows ∧
        series = ams.map (SankeyApp.periodBalance c)) ∧
    (∀ (c : String) (words aw lw : List String)
       (rows : List (String × List (List (String × Int))))
       (nw0 : List Int) (k : String) (series : List Int),
      lookupD (HledgerLit.histStateAux c words aw lw rows [] nw0).1 k =
        some series →
      ∃ ams, (k, ams) ∈ rows ∧
        series = ams.map (HledgerLit.periodBalance c)) := by
  refine ⟨?_, ?_, ?_, ?_⟩
  · intro c pre post a ha hpre
    have hfind : List.find? (fun amount => amount.1 == c) (pre ++ a :: post) =
        some a := by
      apply find?_append_first
      · exact beq_iff_eq.mpr ha
      · intro b hb
        exact beq_eq_false_iff_ne.mpr (hpre b hb)
    constructor
    · simp only [SankeyApp.periodBalance, hfind]
    · simp only [HledgerLit.periodBalance, hfind]
  · intro c al h
    have hfind : List.find? (fun amount => amount.1 == c) al = none :=
      List.find?_eq_none.mpr (fun x hx => by simpa using h x hx)
    constructor
    · simp only [SankeyApp.periodBalance, hfind]
    · simp only [HledgerLit.periodBalance, hfind]
  · intro c tl rows k series h
    rcases sa_histBalAux_lookup_some h with ⟨ams, hmem, _, hv⟩ | hacc
    · exact ⟨ams, hmem, hv⟩
    · simp [lookupD] at hacc
  · intro c words aw lw rows nw0 k series h
    rcases hl_histStateAux_fst_lookup_some h with ⟨ams, hmem, _, hv⟩ | hacc
    · exact ⟨ams, hmem, hv⟩
    · simp [lookupD] at hacc

theorem claim_C7_period_magnitude_witness :
    (SankeyApp.periodBalance "USD" [("EUR", (3 : Int)), ("USD", -7)] =
        |(-7 : Int)| ∧
      HledgerLit.periodBalance "USD" [("EUR", (3 : Int)), ("USD", -7)] =
        |(-7 : Int)|) ∧
    (SankeyApp.periodBalance "USD" [("EUR", (3 : Int))] = 0 ∧
      HledgerLit.periodBalance "USD" [("EUR", (3 : Int))] = 0) ∧
    (SankeyApp.periodBalance "USD" [] = 0 ∧
      HledgerLit.periodBalance "USD" [] = 0) := by
  refine ⟨?_, ?_, ?_⟩
  · exact claim_C7_period_magnitude.1 "USD" [("EUR", 3)] [] ("USD", -7)
      rfl (by decide)
  · exact claim_C7_period_magnitude.2.1 "USD" [("EUR", 3)] (by decide)
  · exact claim_C7_period_magnitude.2.1 "USD" [] (by decide)

/-- Claim C8: in both balance readers, an entry that passes the category
filter but has an empty amounts array still appears in the returned
balance list, with a balance of exactly zero. -/
theorem claim_C8_empty_amounts_zero :
    (∀ (words : List String) (accounts : List (String × List Int))
       (name : String),
      (name, ([] : List Int)) ∈ accounts → anyWordIn words name = true →
      (name, (0 : Int)) ∈ HledgerLit.read_current_balances words accounts) ∧
    (∀ (accounts : List (String × List Int)) (name : String),
      (name, ([] : List Int)) ∈ accounts →
      SankeyApp.TOPLEVEL_ACCOUNT_CATEGORIES.any
        (fun cat => substrIn cat name) = true →
      (name, (0 : Int)) ∈ SankeyApp.read_current_balances accounts) := by
  constructor
  · intro words accounts name hmem hpass
    induction accounts with
    | nil => cases hmem
    | cons e rest ih =>
      obtain ⟨n, ams⟩ := e
      rcases List.mem_cons.mp hmem with heq | hr
      · injection heq with h1 h2
        subst h1
        subst h2
        simp [HledgerLit.read_current_balances, hpass]
      · by_cases hp2 : anyWordIn words n = true
        · simp only [HledgerLit.read_current_balances, hp2, if_true]
          exact List.mem_cons_of_mem _ (ih hr)
        · simp only [HledgerLit.read_current_balances, hp2, if_false]
          exact ih hr
  · intro accounts name hmem hpass
    induction accounts with
    | nil => cases hmem
    | cons e rest ih =>
      obtain ⟨n, ams⟩ := e
      rcases List.mem_cons.mp hmem with heq | hr
      · injection heq with h1 h2
        subst h1
        subst h2
        simp [SankeyApp.read_current_balances, hpass]
      · by_cases hp2 : SankeyApp.TOPLEVEL_ACCOUNT_CATEGORIES.any
            (fun cat => substrIn cat n) = true
        · simp only [SankeyApp.read_current_balances, hp2, if_true]
          exact List.mem_cons_of_mem _ (ih hr)
        · simp only [SankeyApp.read_current_balances, hp2, if_false]
          exact ih hr

theorem claim_C8_empty_amounts_zero_witness :
    ("expenses", (0 : Int)) ∈
      HledgerLit.read_current_balances ["expenses"]
        [("expenses", ([] : List Int))] ∧
    ("expenses", (0 : Int)) ∈
      SankeyApp.read_current_balances [("expenses", ([] : List Int))] := by
  constructor
  · exact claim_C8_empty_amounts_zero.1 ["expenses"]
      [("expenses", [])] "expenses" (by decide) (by decide)
  · exact claim_C8_empty_amounts_zero.2
      [("expenses", [])] "expenses" (by decide) (by decide)

/-- Claim C9: both treemap projectors emit one (name, value, parent name)
triple per retained entry, with the parent computed by the hierarchical
stripping rule (the `parent` function also used by the flow-graph
builders), and perform no parent-completeness check: they are total
projections with no error outcome, defined for every input, including
inputs whose parents are absent from the list. -/
theorem claim_C9_treemap_projection :
    (∀ (balances : List (String × Int)),
      (HledgerLit.expenses_treemap_plot balances).1.length =
        balances.length ∧
      (HledgerLit.expenses_treemap_plot balances).2.1.length =
        balances.length ∧
      (HledgerLit.expenses_treemap_plot balances).2.2.length =
        balances.length ∧
      ∀ i (hi : i < balances.length)
        (h1 : i < (HledgerLit.expenses_treemap_plot balances).1.length)
        (h2 : i < (HledgerLit.expenses_treemap_plot balances).2.1.length)
        (h3 : i < (HledgerLit.expenses_treemap_plot balances).2.2.length),
        (HledgerLit.expenses_treemap_plot balances).1.get ⟨i, h1⟩ =
          (balances.get ⟨i, hi⟩).1 ∧
        (HledgerLit.expenses_treemap_plot balances).2.1.get ⟨i, h2⟩ =
          (balances.get ⟨i, hi⟩).2 ∧
        (HledgerLit.expenses_treemap_plot balances).2.2.get ⟨i, h3⟩ =
          HledgerLit.parent (balances.get ⟨i, hi⟩).1) ∧
    (∀ (balances : List (String × Int)) (ep : String),
      (SankeyApp.expenses_treemap_plot balances ep).1.length =
        (balances.filter (fun e => substrIn ep e.1)).length ∧
      (SankeyApp.expenses_treemap_plot balances ep).2.1.length =
        (balances.filter (fun e => substrIn ep e.1)).length ∧
      (SankeyApp.expenses_treemap_plot balances ep).2.2.length =
        (balances.filter (fun e => substrIn ep e.1)).length ∧
      ∀ i (hi : i < (balances.filter (fun e => substrIn ep e.1)).length)
        (h1 : i < (SankeyApp.expenses_treemap_plot balances ep).1.length)
        (h2 : i < (SankeyApp.expenses_treemap_plot balances ep).2.1.length)
        (h3 : i < (SankeyApp.expenses_treemap_plot balances ep).2.2.length),
        (SankeyApp.expenses_treemap_plot balances ep).1.get ⟨i, h1⟩ =
          ((balances.filter (fun e => substrIn ep e.1)).get ⟨i, hi⟩).1 ∧
        (SankeyApp.expenses_treemap_plot balances ep).2.1.get ⟨i, h2⟩ =
          ((balances.filter (fun e => substrIn ep e.1)).get ⟨i, hi⟩).2 ∧
        (SankeyApp.expenses_treemap_plot balances ep).2.2.get ⟨i, h3⟩ =
          SankeyApp.parent
            ((balances.filter (fun e => substrIn ep e.1)).get ⟨i, hi⟩).1) := by
  constructor
  · intro balances
    refine ⟨List.length_map balances _, List.length_map balances _,
      List.length_map balances _, ?_⟩
    intro i hi h1 h2 h3
    exact ⟨map_get_eq _ balances i hi h1, map_get_eq _ balances i hi h2,
      map_get_eq _ balances i hi h3⟩
  · intro balances ep
    refine ⟨List.length_map _ _, List.length_map _ _,
      List.length_map _ _, ?_⟩
    intro i hi h1 h2 h3
    exact ⟨map_get_eq _ _ i hi h1, map_get_eq _ _ i hi h2,
      map_get_eq _ _ i hi h3⟩

theorem claim_C9_treemap_projection_witness :
    (HledgerLit.expenses_treemap_plot
      [("expenses:food", (200 : Int))]).2.2.get ⟨0, by decide⟩ =
      HledgerLit.parent "expenses:food" ∧
    (HledgerLit.expenses_treemap_plot
      [("expenses:food", (200 : Int))]).2.2 = ["expenses"] := by
  constructor
  · exact ((claim_C9_treemap_projection.1
      [("expenses:food", 200)]).2.2.2 0 (by decide) (by decide) (by decide)
      (by decide)).2.2
  · rfl
